import Mathlib

/-!
Verification development for the call-analyzer application (`app.py`).

The analysis core is embedded shallowly over `List Char`:
* `local_fallback` embeds the offline summarizer/sentiment function
  (`app.py` lines 31-42),
* `json_loads`, `tryExtract`, `braceExtract`, `parseResponse` embed the
  response-parsing part of `call_groq_for_json` (`app.py` lines 63-74),
* `dispatch` embeds the Analyze-button dispatch logic
  (`app.py` lines 110-128).

Python strings are modelled as `List Char`; `str.strip`, `str.split`,
`str.lower`, `str.count` and the two regular expressions used by the code
are embedded explicitly.  Unicode-specific behaviour (non-ASCII lowercasing,
non-ASCII whitespace) is modelled on the ASCII fragment.
-/

namespace CallAnalyzer

/-- Convert a Lean string literal to the `List Char` representation used
throughout this development. -/
def chars (s : String) : List Char := s.data

/-- The whitespace characters of Python's `str.strip()` / `\s` (ASCII part):
space, tab, newline, carriage return, vertical tab, form feed. -/
def pySpace (c : Char) : Bool :=
  c = ' ' || c = '\t' || c = '\n' || c = '\r' || c = '\x0b' || c = '\x0c'

/-- Python `str.strip()`: drop leading and trailing whitespace. -/
def pyStrip (l : List Char) : List Char :=
  ((l.dropWhile pySpace).reverse.dropWhile pySpace).reverse

/-- ASCII model of Python `str.lower()` on a single character. -/
def lowerChar (c : Char) : Char :=
  if 'A' ≤ c ∧ c ≤ 'Z' then Char.ofNat (c.toNat + 32) else c

/-- ASCII model of Python `str.lower()`. -/
def pyLower (l : List Char) : List Char := l.map lowerChar

/-- Python `str.split()` with no argument: split on whitespace runs,
discarding empty pieces. -/
def pySplit (l : List Char) : List (List Char) :=
  (l.splitOnP pySpace).filter (fun w => w ≠ [])

/-- A sentence terminator of the regex `[.?!]`. -/
def isTerm (c : Char) : Bool := c = '.' || c = '?' || c = '!'

/-- The regex `[.?!]\s+` matches at the current position: the head is a
terminator and the next character is whitespace. -/
def cutCond (c : Char) (rest : List Char) : Bool :=
  isTerm c && (match rest with | d :: _ => pySpace d | [] => false)

/-- One scanning step of Python `re.split(r'[.?!]\s+', s)`: accumulate the
current piece in `acc` (reversed); a leftmost match of `[.?!]\s+` (the
terminator together with the greedy whitespace run after it) ends the
current piece. -/
def reSplitGo : List Char → List Char → List (List Char)
  | acc, [] => [acc.reverse]
  | acc, c :: rest =>
    if cutCond c rest then
      acc.reverse :: reSplitGo [] (rest.dropWhile pySpace)
    else
      reSplitGo (c :: acc) rest
  termination_by _ l => l.length
  decreasing_by
    all_goals simp_wf
    all_goals exact Nat.lt_succ_of_le (List.dropWhile_sublist _).length_le

/-- Python `re.split(r'[.?!]\s+', s)`. -/
def reSplit (l : List Char) : List (List Char) := reSplitGo [] l

/-- Python `str.count(sub)`: number of non-overlapping occurrences,
scanning left to right. -/
def strCount (sub : List Char) : List Char → Nat
  | [] => 0
  | c :: rest =>
    if sub.isPrefixOf (c :: rest) then
      1 + strCount sub (rest.drop (sub.length - 1))
    else
      strCount sub rest
  termination_by l => l.length
  decreasing_by
    all_goals simp_wf
    all_goals omega

/-- The fixed negative-term list of `local_fallback` (`app.py` line 39). -/
def negWords : List (List Char) :=
  [chars "not", chars "failed", chars "frustrat", chars "angry",
   chars "charged", chars "refund", chars "problem", chars "issue",
   chars "complain", chars "delay"]

/-- The fixed positive-term list of `local_fallback` (`app.py` line 40). -/
def posWords : List (List Char) :=
  [chars "thank", chars "thanks", chars "great", chars "happy",
   chars "good", chars "satisfied"]

/-- `local_fallback` (`app.py` lines 31-42): offline summarizer and naive
sentiment.  Every step of the Python function is embedded, including the
`if sentences else` branch guarding the 12-token/ellipsis fallback (which
is dead in Python because `re.split` always returns a non-empty list). -/
def local_fallback (transcript : List Char) : List Char × List Char :=
  let s := pyStrip transcript
  let sentences := reSplit s
  let summary :=
    match sentences with
    | first :: _ => pyStrip first
    | [] => (List.intercalate (chars " ") ((pySplit s).take 12)) ++ chars "..."
  let t := pyLower s
  let neg := (negWords.map (fun w => strCount w t)).sum
  let pos := (posWords.map (fun w => strCount w t)).sum
  let sentiment :=
    if neg > pos then chars "Negative"
    else if pos > neg then chars "Positive"
    else chars "Neutral"
  (summary, sentiment)

/-! ### JSON values and `json.loads`

`call_groq_for_json` relies on Python's `json.loads`.  The model below is a
strict JSON reader over `List Char`: objects, arrays, strings with the
standard escape sequences (`\uXXXX` decoded as a single code point; surrogate
pairing is not modelled), numbers (lexeme kept, value unused by the code),
`true`/`false`/`null`, with JSON whitespace and a full-input check at top
level.  Duplicate object keys resolve to the last occurrence, as in Python. -/

/-- A parsed JSON value.  Number lexemes are kept verbatim: the application
never uses numeric values, only their (non-string) type. -/
inductive JVal where
  | jnull : JVal
  | jbool : Bool → JVal
  | jnum : List Char → JVal
  | jstr : List Char → JVal
  | jarr : List JVal → JVal
  | jobj : List (List Char × JVal) → JVal
deriving BEq

/-- JSON whitespace (the characters `json.loads` skips between tokens). -/
def jWs (c : Char) : Bool :=
  c = ' ' || c = '\t' || c = '\n' || c = '\r'

/-- Value of a hexadecimal digit, if any. -/
def hexVal (c : Char) : Option Nat :=
  if '0' ≤ c ∧ c ≤ '9' then some (c.toNat - '0'.toNat)
  else if 'a' ≤ c ∧ c ≤ 'f' then some (c.toNat - 'a'.toNat + 10)
  else if 'A' ≤ c ∧ c ≤ 'F' then some (c.toNat - 'A'.toNat + 10)
  else none

/-- Read a JSON string body (the opening quote already consumed); returns the
decoded content and the remaining input after the closing quote. -/
def parseStringBody : Nat → List Char → Option (List Char × List Char)
  | 0, _ => none
  | _ + 1, [] => none
  | fuel + 1, c :: rest =>
    if c = '"' then some ([], rest)
    else if c = '\\' then
      match rest with
      | [] => none
      | e :: rest2 =>
        if e = 'u' then
          match rest2 with
          | h1 :: h2 :: h3 :: h4 :: rest3 =>
            match hexVal h1, hexVal h2, hexVal h3, hexVal h4 with
            | some a, some b, some cc, some d =>
              (parseStringBody fuel rest3).map
                (fun p => (Char.ofNat (((a * 16 + b) * 16 + cc) * 16 + d) :: p.1, p.2))
            | _, _, _, _ => none
          | _ => none
        else
          match
            (if e = '"' then some '"'
             else if e = '\\' then some '\\'
             else if e = '/' then some '/'
             else if e = 'b' then some '\x08'
             else if e = 'f' then some '\x0c'
             else if e = 'n' then some '\n'
             else if e = 'r' then some '\r'
             else if e = 't' then some '\t'
             else none) with
          | some d => (parseStringBody fuel rest2).map (fun p => (d :: p.1, p.2))
          | none => none
    else if c.toNat < 0x20 then none
    else (parseStringBody fuel rest).map (fun p => (c :: p.1, p.2))

/-- Read a JSON number lexeme `-?(0|[1-9][0-9]*)(\.[0-9]+)?([eE][+-]?[0-9]+)?`;
returns the lexeme and the remaining input. -/
def parseNumber (l : List Char) : Option (List Char × List Char) :=
  let (sign, l1) :=
    match l with
    | '-' :: r => ([('-' : Char)], r)
    | _ => (([] : List Char), l)
  match l1 with
  | [] => none
  | c :: cs =>
    if ¬ c.isDigit then none
    else
      let (ip, l2) :=
        if c = '0' then ([c], cs) else (l1.takeWhile Char.isDigit, l1.dropWhile Char.isDigit)
      let (fp, l3) :=
        match l2 with
        | '.' :: r =>
          if (r.takeWhile Char.isDigit) = [] then (([] : List Char), l2)
          else ('.' :: r.takeWhile Char.isDigit, r.dropWhile Char.isDigit)
        | _ => (([] : List Char), l2)
      let ok3 : Bool :=
        match l2 with
        | '.' :: r => !(r.takeWhile Char.isDigit).isEmpty
        | _ => true
      let (ep, l4) :=
        match l3 with
        | e :: r =>
          if e = 'e' ∨ e = 'E' then
            let (sgn, r1) :=
              match r with
              | s :: r2 => if s = '+' ∨ s = '-' then ([s], r2) else (([] : List Char), r)
              | [] => (([] : List Char), r)
            if (r1.takeWhile Char.isDigit) = [] then (([] : List Char), l3, false)
            else (e :: (sgn ++ r1.takeWhile Char.isDigit), r1.dropWhile Char.isDigit, true)
          else (([] : List Char), l3, true)
        | [] => (([] : List Char), l3, true)
      if ok3 && l4.2 then some (sign ++ ip ++ fp ++ ep, l4.1) else none

mutual

/-- Read one JSON value (leading whitespace allowed); fuel-bounded recursive
descent modelling `json.loads`'s grammar. -/
def parseValue : Nat → List Char → Option (JVal × List Char)
  | 0, _ => none
  | fuel + 1, l =>
    match l.dropWhile jWs with
    | [] => none
    | c :: rest =>
      if c = '\x7b' then
        match rest.dropWhile jWs with
        | '\x7d' :: r => some (JVal.jobj [], r)
        | _ => parseObjRest fuel [] rest
      else if c = '[' then
        match rest.dropWhile jWs with
        | ']' :: r => some (JVal.jarr [], r)
        | _ => parseArrRest fuel [] rest
      else if c = '"' then
        (parseStringBody (fuel + 1) rest).map (fun p => (JVal.jstr p.1, p.2))
      else if c = 't' then
        match rest with
        | 'r' :: 'u' :: 'e' :: r => some (JVal.jbool true, r)
        | _ => none
      else if c = 'f' then
        match rest with
        | 'a' :: 'l' :: 's' :: 'e' :: r => some (JVal.jbool false, r)
        | _ => none
      else if c = 'n' then
        match rest with
        | 'u' :: 'l' :: 'l' :: r => some (JVal.jnull, r)
        | _ => none
      else if c = '-' ∨ c.isDigit then
        (parseNumber (c :: rest)).map (fun p => (JVal.jnum p.1, p.2))
      else none

/-- Read the members of a JSON object after `{` (or after a `,`). -/
def parseObjRest : Nat → List (List Char × JVal) → List Char →
    Option (JVal × List Char)
  | 0, _, _ => none
  | fuel + 1, acc, l =>
    match l.dropWhile jWs with
    | '"' :: r =>
      match parseStringBody (fuel + 1) r with
      | none => none
      | some (k, r1) =>
        match r1.dropWhile jWs with
        | ':' :: r2 =>
          match parseValue fuel r2 with
          | none => none
          | some (v, r3) =>
            match r3.dropWhile jWs with
            | ',' :: r4 => parseObjRest fuel (acc ++ [(k, v)]) r4
            | '\x7d' :: r4 => some (JVal.jobj (acc ++ [(k, v)]), r4)
            | _ => none
        | _ => none
    | _ => none

/-- Read the elements of a JSON array after `[` (or after a `,`). -/
def parseArrRest : Nat → List JVal → List Char → Option (JVal × List Char)
  | 0, _, _ => none
  | fuel + 1, acc, l =>
    match parseValue fuel l with
    | none => none
    | some (v, r) =>
      match r.dropWhile jWs with
      | ',' :: r2 => parseArrRest fuel (acc ++ [v]) r2
      | ']' :: r2 => some (JVal.jarr (acc ++ [v]), r2)
      | _ => none

end

/-- Python `json.loads`: parse one value and require only whitespace after
it; `none` models a raised `JSONDecodeError`. -/
def json_loads (l : List Char) : Option JVal :=
  match parseValue (l.length + 2) l with
  | some (v, rest) => if rest.dropWhile jWs = [] then some v else none
  | none => none

/-- Python `dict.get` on the member list of a parsed object: the last
binding of the key wins, as for duplicate keys in `json.loads`. -/
def dictGet (kvs : List (List Char × JVal)) (k : List Char) : Option JVal :=
  (kvs.reverse.find? (fun p => p.1 == k)).map Prod.snd

/-- `parsed.get(key, "").strip()`: absent key yields the empty string; a
string value is stripped; a non-string value makes `.strip()` raise
(`none`). -/
def getField (kvs : List (List Char × JVal)) (k : List Char) :
    Option (List Char) :=
  match dictGet kvs k with
  | none => some []
  | some (JVal.jstr s) => some (pyStrip s)
  | some _ => none

/-- The body of one `try` block of `call_groq_for_json` (lines 63-65 and
69-71): `json.loads` the text, then `parsed.get("summary", "").strip()` and
`parsed.get("sentiment", "").strip()`; `none` models any raised exception
(decode error, `.get` on a non-dict, `.strip` on a non-string). -/
def tryExtract (generated : List Char) : Option (List Char × List Char) :=
  match json_loads generated with
  | some (JVal.jobj kvs) =>
    match getField kvs (chars "summary"), getField kvs (chars "sentiment") with
    | some a, some b => some (a, b)
    | _, _ => none
  | _ => none

/-- `re.search(r"\{.*\}", generated, re.DOTALL)` (line 67): with the greedy
`.*` and DOTALL this matches from the first `{` to the last `}` when the
latter lies strictly after the former, and fails otherwise. -/
def braceExtract (g : List Char) : Option (List Char) :=
  match g.findIdx? (fun c => c = '\x7b'), g.reverse.findIdx? (fun c => c = '\x7d') with
  | some i, some jr =>
    let j := g.length - 1 - jr
    if i < j then some ((g.drop i).take (j - i + 1)) else none
  | _, _ => none

/-- The parsing tail of `call_groq_for_json` (`app.py` lines 63-74), given
the generated text: strict parse, then brace-block parse, then the
`(generated.strip(), "Unknown")` fallback. -/
def parseResponse (generated : List Char) : List Char × List Char :=
  match tryExtract generated with
  | some p => p
  | none =>
    match braceExtract generated with
    | some b =>
      match tryExtract b with
      | some p => p
      | none => (pyStrip generated, chars "Unknown")
    | none => (pyStrip generated, chars "Unknown")

/-! ### The dispatch logic of the Analyze handler -/

/-- The module-level environment of `app.py`: whether the `groq` import
succeeded (`GROQ_AVAILABLE`), the `GROQ_API_KEY` value (`none` models an
unset variable), whether the `Groq(...)` constructor succeeds, and the text
the remote call produces (`none` models any exception raised by
`call_groq_for_json`'s API call). -/
structure Env where
  groqAvailable : Bool
  apiKey : Option (List Char)
  clientOk : Bool
  remote : Option (List Char)

/-- Python truthiness test `not GROQ_API_KEY`: `None` and `""` are falsy. -/
def keyFalsy : Option (List Char) → Bool
  | none => true
  | some s => s.isEmpty

/-- `make_groq_client` (`app.py` lines 22-28): `none` when the capability or
credential is missing or construction raises; `some ()` is a live client. -/
def make_groq_client (env : Env) : Option Unit :=
  if ¬ env.groqAvailable || keyFalsy env.apiKey then none
  else if env.clientOk then some () else none

/-- The outcome of one Analyze dispatch: the displayed summary and
sentiment, the `used` tag, and whether the `Groq(...)` constructor was ever
invoked during the dispatch. -/
structure DispatchResult where
  summary : List Char
  sentiment : List Char
  used : List Char
  groqConstructorCalled : Bool
deriving DecidableEq

/-- The dispatch block of the Analyze handler (`app.py` lines 110-128):
offline test, conditional client construction, remote call with a
catch-all fallback to `local_fallback`.  The function is total: no branch
raises to the caller. -/
def dispatch (env : Env) (transcript : List Char) : DispatchResult :=
  let use_offline := !env.groqAvailable || keyFalsy env.apiKey
  if use_offline then
    let r := local_fallback transcript
    ⟨r.1, r.2, chars "LOCAL_FALLBACK", false⟩
  else
    match make_groq_client env with
    | none =>
      let r := local_fallback transcript
      ⟨r.1, r.2, chars "LOCAL_FALLBACK", true⟩
    | some _ =>
      match env.remote with
      | none =>
        let r := local_fallback transcript
        ⟨r.1, r.2, chars "LOCAL_FALLBACK", true⟩
      | some generated =>
        let r := parseResponse generated
        ⟨r.1, r.2, chars "GROQ", true⟩

/-! ### Specification-side definitions

These restate parts of the specification in its own words, to be compared
with the embedded code. -/

/-- Number of positions at which `sub` occurs as a substring (overlapping
occurrences all counted) — the specification's reading of an
"occurrence count". -/
def occCount (sub : List Char) : List Char → Nat
  | [] => 0
  | c :: rest => (if sub.isPrefixOf (c :: rest) then 1 else 0) + occCount sub rest

/-- `sub` has no non-trivial border: no proper non-empty prefix of `sub` is
also a suffix.  For such words, non-overlapping and overlapping occurrence
counts agree. -/
def borderFreeB (sub : List Char) : Bool :=
  (List.range sub.length).all
    (fun i => i = 0 || decide (sub.take (sub.length - i) ≠ sub.drop i))

/-- A keyword suitable for the counting arguments: non-empty, border-free,
and containing no whitespace character. -/
def goodWord (w : List Char) : Bool :=
  !w.isEmpty && borderFreeB w && w.all (fun c => !pySpace c)

/-- Sentiment as the specification words it: lower-case the transcript, sum
the substring-occurrence counts of the fixed negative and positive terms,
and compare. -/
def specSentiment (transcript : List Char) : List Char :=
  let t := pyLower transcript
  let neg := (negWords.map (fun w => occCount w t)).sum
  let pos := (posWords.map (fun w => occCount w t)).sum
  if neg > pos then chars "Negative"
  else if pos > neg then chars "Positive"
  else chars "Neutral"

/-! ### Counting lemmas -/

theorem strCount_nil (sub : List Char) : strCount sub [] = 0 := by
  simp [strCount]

theorem strCount_cons (sub : List Char) (c : Char) (rest : List Char) :
    strCount sub (c :: rest) =
      if sub.isPrefixOf (c :: rest) then
        1 + strCount sub (rest.drop (sub.length - 1))
      else strCount sub rest := by
  rw [strCount]

theorem occCount_nil (sub : List Char) : occCount sub [] = 0 := rfl

theorem occCount_cons (sub : List Char) (c : Char) (l : List Char) :
    occCount sub (c :: l) =
      (if sub.isPrefixOf (c :: l) then 1 else 0) + occCount sub l := rfl

theorem borderFreeB_spec {sub : List Char} (h : borderFreeB sub = true)
    {i : Nat} (h0 : 0 < i) (hi : i < sub.length) :
    sub.take (sub.length - i) ≠ sub.drop i := by
  have := (List.all_eq_true.mp h) i (List.mem_range.mpr hi)
  simp only [Bool.or_eq_true, decide_eq_true_eq, decide_eq_true_iff] at this
  rcases this with h' | h'
  · omega
  · exact h'

/-- A border-free word cannot occur strictly inside one of its own
occurrences: `sub` is not a prefix of `sub.drop i ++ u` for `0 < i < |sub|`. -/
theorem not_prefix_drop_append {sub : List Char} (hbf : borderFreeB sub = true)
    {i : Nat} (h0 : 0 < i) (hi : i < sub.length) (u : List Char) :
    ¬ sub.isPrefixOf (sub.drop i ++ u) := by
  intro hpre
  have hp : sub <+: sub.drop i ++ u := List.isPrefixOf_iff_prefix.mp hpre
  have heq : sub = (sub.drop i ++ u).take sub.length :=
    List.prefix_iff_eq_take.mp hp
  have hlen : (sub.drop i).length = sub.length - i := List.length_drop i sub
  have heq2 : sub = sub.drop i ++ u.take i := by
    calc sub = (sub.drop i ++ u).take sub.length := heq
      _ = (sub.drop i).take sub.length ++ u.take (sub.length - (sub.drop i).length) :=
          List.take_append_eq_append_take
      _ = sub.drop i ++ u.take i := by
          rw [List.take_of_length_le (by rw [hlen]; omega), hlen]
          have h2 : sub.length - (sub.length - i) = i := by omega
          rw [h2]
  have h3 : sub.take (sub.length - i) = (sub.drop i ++ u.take i).take (sub.length - i) :=
    congrArg (List.take (sub.length - i)) heq2
  rw [List.take_append_eq_append_take, List.take_of_length_le (le_of_eq hlen),
    hlen, Nat.sub_self, List.take_zero, List.append_nil] at h3
  exact borderFreeB_spec hbf h0 hi h3

/-- Occurrence counting ignores the proper tail of a border-free word glued
in front of the rest of the text. -/
theorem occCount_drop_append {sub : List Char} (hbf : borderFreeB sub = true) :
    ∀ n j u, j + n = sub.length → 0 < j →
      occCount sub (sub.drop j ++ u) = occCount sub u := by
  intro n
  induction n with
  | zero =>
    intro j u hj _
    have : sub.drop j = [] := List.drop_eq_nil_of_le (by omega)
    rw [this, List.nil_append]
  | succ n ih =>
    intro j u hj hj0
    have hjk : j < sub.length := by omega
    rw [List.drop_eq_getElem_cons hjk, List.cons_append, occCount_cons]
    have hnp : ¬ sub.isPrefixOf (sub[j] :: (sub.drop (j + 1) ++ u)) := by
      have := not_prefix_drop_append hbf hj0 hjk u
      rwa [List.drop_eq_getElem_cons hjk, List.cons_append] at this
    rw [if_neg hnp]
    simpa using ih (j + 1) u (by omega) (by omega)

/-- For a non-empty border-free word, Python's non-overlapping `str.count`
agrees with the all-positions occurrence count. -/
theorem strCount_eq_occCount {sub : List Char} (hbf : borderFreeB sub = true)
    (hne : sub ≠ []) : ∀ t, strCount sub t = occCount sub t := by
  suffices h : ∀ n t, t.length ≤ n → strCount sub t = occCount sub t by
    exact fun t => h t.length t le_rfl
  intro n
  induction n with
  | zero =>
    intro t ht
    have : t = [] := List.eq_nil_of_length_eq_zero (by omega)
    subst this
    rw [strCount_nil, occCount_nil]
  | succ n ih =>
    intro t ht
    match t with
    | [] => rw [strCount_nil, occCount_nil]
    | c :: rest =>
      have hts : rest.length + 1 ≤ n + 1 := by simpa using ht
      by_cases hpre : sub.isPrefixOf (c :: rest)
      · have hp : sub <+: c :: rest := List.isPrefixOf_iff_prefix.mp hpre
        obtain ⟨u, hu⟩ := hp
        have hk : 0 < sub.length := List.length_pos.mpr hne
        have hlu : sub.length + u.length = rest.length + 1 := by
          have := congrArg List.length hu
          simpa using this
        have hrest : rest = sub.tail ++ u := by
          have h := congrArg List.tail hu
          rw [List.tail_append_of_ne_nil hne, List.tail_cons] at h
          exact h.symm
        have hdrop : rest.drop (sub.length - 1) = u := by
          rw [hrest]
          have hl : (sub.tail).length = sub.length - 1 := List.length_tail sub
          rw [← hl, List.drop_left]
        rw [strCount_cons, if_pos hpre, occCount_cons, if_pos hpre, hdrop]
        have htail : occCount sub rest = occCount sub u := by
          rw [hrest]
          have h1 : sub.tail = sub.drop 1 := (List.drop_one sub).symm
          rw [h1]
          exact occCount_drop_append hbf (sub.length - 1) 1 u (by omega) (by omega)
        rw [htail, ih u (by omega)]
      · rw [strCount_cons, if_neg hpre, occCount_cons, if_neg hpre]
        simpa using ih rest (by omega)

/-! ### Whitespace-padding invariance of the counts -/

theorem occCount_space_prepend {sub : List Char} (hne : sub ≠ [])
    (hns : ∀ c ∈ sub, pySpace c = false) :
    ∀ w m, (∀ c ∈ w, pySpace c = true) →
      occCount sub (w ++ m) = occCount sub m := by
  intro w
  induction w with
  | nil => intro m _; rw [List.nil_append]
  | cons a w' ih =>
    intro m hw
    rw [List.cons_append, occCount_cons]
    have hnp : ¬ sub.isPrefixOf (a :: (w' ++ m)) := by
      intro hp
      cases sub with
      | nil => exact hne rfl
      | cons s0 st =>
        have h1 := (List.cons_prefix_cons.mp (List.isPrefixOf_iff_prefix.mp hp)).1
        have hs := hns s0 (by simp)
        rw [h1, hw a (by simp)] at hs
        cases hs
    rw [if_neg hnp, Nat.zero_add]
    exact ih m (fun c hc => hw c (List.mem_cons_of_mem a hc))

/-- A whitespace-free word that is a prefix of `m ++ w` for all-space `w`
is already a prefix of `m`. -/
theorem prefix_of_append_space {w : List Char}
    (hw : ∀ c ∈ w, pySpace c = true) :
    ∀ (sub m : List Char), (∀ c ∈ sub, pySpace c = false) →
      sub <+: m ++ w → sub <+: m := by
  intro sub
  induction sub with
  | nil => intro m _ _; exact List.nil_prefix
  | cons s st ih =>
    intro m hns hp
    cases m with
    | nil =>
      exfalso
      cases w with
      | nil => simp at hp
      | cons a w' =>
        have h1 := (List.cons_prefix_cons.mp (by simpa using hp)).1
        have hs := hns s (by simp)
        rw [h1, hw a (by simp)] at hs
        cases hs
    | cons b m' =>
      have h1 := List.cons_prefix_cons.mp (by simpa using hp)
      exact List.cons_prefix_cons.mpr
        ⟨h1.1, ih m' (fun c hc => hns c (List.mem_cons_of_mem s hc)) h1.2⟩

theorem occCount_space_append {sub : List Char} (hne : sub ≠ [])
    (hns : ∀ c ∈ sub, pySpace c = false) {w : List Char}
    (hw : ∀ c ∈ w, pySpace c = true) :
    ∀ m, occCount sub (m ++ w) = occCount sub m := by
  intro m
  induction m with
  | nil =>
    have h := occCount_space_prepend hne hns w [] hw
    rw [List.nil_append]
    rw [List.append_nil] at h
    rw [h, occCount_nil]
  | cons b m' ih =>
    rw [List.cons_append, occCount_cons, occCount_cons, ih]
    have hiff : sub.isPrefixOf (b :: (m' ++ w)) = true ↔
        sub.isPrefixOf (b :: m') = true := by
      rw [List.isPrefixOf_iff_prefix, List.isPrefixOf_iff_prefix]
      constructor
      · intro hp
        exact prefix_of_append_space hw sub (b :: m') hns (by simpa using hp)
      · intro hp
        have h2 := hp.trans (List.prefix_append (b :: m') w)
        simpa using h2
    by_cases h : sub.isPrefixOf (b :: m')
    · rw [if_pos (hiff.mpr h), if_pos h]
    · rw [if_neg (fun hc => h (hiff.mp hc)), if_neg h]

/-! ### Strip decomposition and lower-casing -/

theorem pyStrip_decomp (t : List Char) :
    ∃ w w', (∀ c ∈ w, pySpace c = true) ∧ (∀ c ∈ w', pySpace c = true) ∧
      t = w ++ pyStrip t ++ w' := by
  refine ⟨t.takeWhile pySpace,
    ((t.dropWhile pySpace).reverse.takeWhile pySpace).reverse, ?_, ?_, ?_⟩
  · intro c hc
    exact List.mem_takeWhile_imp hc
  · intro c hc
    rw [List.mem_reverse] at hc
    exact List.mem_takeWhile_imp hc
  · conv_lhs => rw [← List.takeWhile_append_dropWhile pySpace t]
    rw [List.append_assoc]
    congr 1
    have h :
        (t.dropWhile pySpace).reverse
          = (t.dropWhile pySpace).reverse.takeWhile pySpace
            ++ (t.dropWhile pySpace).reverse.dropWhile pySpace :=
      (List.takeWhile_append_dropWhile _ _).symm
    have h2 := congrArg List.reverse h
    rw [List.reverse_reverse, List.reverse_append] at h2
    exact h2

theorem lowerChar_space {c : Char} (h : pySpace c = true) : lowerChar c = c := by
  have h6 := h
  simp only [pySpace, Bool.or_eq_true, decide_eq_true_iff] at h6
  rcases h6 with ((((rfl | rfl) | rfl) | rfl) | rfl) | rfl <;> decide

theorem pyLower_space_list {w : List Char} (hw : ∀ c ∈ w, pySpace c = true) :
    ∀ c ∈ pyLower w, pySpace c = true := by
  intro c hc
  rw [pyLower, List.mem_map] at hc
  obtain ⟨a, ha, rfl⟩ := hc
  rw [lowerChar_space (hw a ha)]
  exact hw a ha

/-- Each keyword count of `local_fallback` (Python `str.count` over the
lower-cased *stripped* transcript) equals the specification's occurrence
count over the lower-cased transcript. -/
theorem strCount_strip_eq_occCount_full (w : List Char)
    (hgw : goodWord w = true) (t : List Char) :
    strCount w (pyLower (pyStrip t)) = occCount w (pyLower t) := by
  have hsplit : (!w.isEmpty && borderFreeB w
      && w.all (fun c => !pySpace c)) = true := hgw
  rw [Bool.and_eq_true, Bool.and_eq_true] at hsplit
  have hne : w ≠ [] := by
    have := hsplit.1.1
    cases w with
    | nil => simp at this
    | cons a l => exact List.cons_ne_nil a l
  have hbf : borderFreeB w = true := hsplit.1.2
  have hns : ∀ c ∈ w, pySpace c = false := by
    intro c hc
    have := List.all_eq_true.mp hsplit.2 c hc
    simpa using this
  obtain ⟨wl, wr, hwl, hwr, hdec⟩ := pyStrip_decomp t
  have hlow : pyLower t = pyLower wl ++ pyLower (pyStrip t) ++ pyLower wr := by
    have h1 := congrArg pyLower hdec
    simp only [pyLower, List.map_append] at h1
    exact h1
  rw [strCount_eq_occCount hbf hne, hlow, List.append_assoc,
    occCount_space_prepend hne hns (pyLower wl) _ (pyLower_space_list hwl),
    occCount_space_append hne hns (pyLower_space_list hwr) (pyLower (pyStrip t))]

theorem sum_counts_eq (ws : List (List Char)) (hws : ws.all goodWord = true)
    (t : List Char) :
    (ws.map (fun w => strCount w (pyLower (pyStrip t)))).sum
      = (ws.map (fun w => occCount w (pyLower t))).sum := by
  induction ws with
  | nil => rfl
  | cons w ws ih =>
    rw [List.all_cons, Bool.and_eq_true] at hws
    rw [List.map_cons, List.map_cons, List.sum_cons, List.sum_cons,
      strCount_strip_eq_occCount_full w hws.1 t, ih hws.2]

/-! ### Structure of the sentence split -/

theorem reSplitGo_nil (acc : List Char) : reSplitGo acc [] = [acc.reverse] := by
  rw [reSplitGo.eq_def]

theorem reSplitGo_cons (acc : List Char) (c : Char) (rest : List Char) :
    reSplitGo acc (c :: rest) =
      if cutCond c rest then
        acc.reverse :: reSplitGo [] (rest.dropWhile pySpace)
      else reSplitGo (c :: acc) rest := by
  rw [reSplitGo.eq_def]

theorem reSplitGo_head :
    ∀ (l acc : List Char), ∃ w t, reSplitGo acc l = (acc.reverse ++ w) :: t := by
  intro l
  induction l with
  | nil =>
    intro acc
    refine ⟨[], [], ?_⟩
    rw [reSplitGo_nil, List.append_nil]
  | cons c rest ih =>
    intro acc
    rw [reSplitGo_cons]
    by_cases h : cutCond c rest = true
    · refine ⟨[], reSplitGo [] (rest.dropWhile pySpace), ?_⟩
      rw [if_pos h, List.append_nil]
    · obtain ⟨w, t, hw⟩ := ih (c :: acc)
      refine ⟨c :: w, t, ?_⟩
      rw [if_neg h, hw, List.reverse_cons, List.append_assoc, List.singleton_append]

theorem reSplit_ne_nil (l : List Char) : reSplit l ≠ [] := by
  obtain ⟨w, t, h⟩ := reSplitGo_head l []
  rw [reSplit, h]
  exact List.cons_ne_nil _ _

theorem reSplit_head_no_cut {c : Char} {rest : List Char}
    (h : cutCond c rest = false) :
    ∃ w t, reSplit (c :: rest) = (c :: w) :: t := by
  rw [reSplit, reSplitGo_cons, if_neg (by rw [h]; exact Bool.false_ne_true)]
  obtain ⟨w, t, hw⟩ := reSplitGo_head rest [c]
  refine ⟨w, t, ?_⟩
  rw [hw, List.reverse_singleton, List.singleton_append]

/-- The summary computed by `local_fallback` is always the trimmed first
piece of the sentence split: the 12-token/ellipsis branch is unreachable. -/
theorem local_fallback_summary (t : List Char) :
    (local_fallback t).1 = pyStrip ((reSplit (pyStrip t)).headI) := by
  obtain ⟨w, tl, h⟩ := reSplitGo_head (pyStrip t) []
  have h' : reSplit (pyStrip t) = w :: tl := by
    rw [reSplit, h, List.reverse_nil, List.nil_append]
  simp only [local_fallback, h', List.headI]

/-! ### The head of a stripped string -/

theorem head_dropWhile_false {p : Char → Bool} {l r : List Char} {c : Char}
    (h : l.dropWhile p = c :: r) : p c = false := by
  induction l with
  | nil => simp at h
  | cons a l ih =>
    rw [List.dropWhile_cons] at h
    by_cases hp : p a = true
    · rw [if_pos hp] at h
      exact ih h
    · rw [if_neg hp] at h
      injection h with h1 _
      rw [← h1]
      exact Bool.not_eq_true _ ▸ hp

theorem pyStrip_head_not_space {t : List Char} {c : Char} {rest : List Char}
    (h : pyStrip t = c :: rest) : pySpace c = false := by
  have hsuf : (t.dropWhile pySpace).reverse.dropWhile pySpace <:+
      (t.dropWhile pySpace).reverse := List.dropWhile_suffix pySpace
  have hpre : ((t.dropWhile pySpace).reverse.dropWhile pySpace).reverse <+:
      t.dropWhile pySpace := by
    have h2 := List.reverse_prefix.mpr hsuf
    rwa [List.reverse_reverse] at h2
  rw [pyStrip] at h
  rw [h] at hpre
  obtain ⟨u, hu⟩ := hpre
  rw [List.cons_append] at hu
  exact head_dropWhile_false hu.symm

theorem pyStrip_cons_ne_nil {c : Char} (hc : pySpace c = false)
    (w : List Char) : pyStrip (c :: w) ≠ [] := by
  rw [pyStrip]
  have h1 : (c :: w).dropWhile pySpace = c :: w := by
    rw [List.dropWhile_cons, hc]
    simp
  rw [h1]
  intro hnil
  rw [List.reverse_eq_nil_iff, List.dropWhile_eq_nil_iff] at hnil
  have := hnil c (by simp)
  rw [hc] at this
  cases this

/-! ### Dispatch case analysis -/

set_option maxHeartbeats 1000000 in
/-- Every dispatch either takes the model path (`used = "GROQ"`) or returns
exactly `local_fallback`'s pair with `used = "LOCAL_FALLBACK"`. -/
theorem dispatch_used_cases (env : Env) (t : List Char) :
    (dispatch env t).used = chars "GROQ" ∨
      ((dispatch env t).summary = (local_fallback t).1 ∧
        (dispatch env t).sentiment = (local_fallback t).2 ∧
        (dispatch env t).used = chars "LOCAL_FALLBACK") := by
  simp only [dispatch]
  by_cases h1 : (!env.groqAvailable || keyFalsy env.apiKey) = true
  · rw [if_pos h1]
    right
    exact ⟨rfl, rfl, rfl⟩
  · rw [if_neg h1]
    cases make_groq_client env with
    | none =>
      right
      exact ⟨rfl, rfl, rfl⟩
    | some u =>
      cases env.remote with
      | none =>
        right
        exact ⟨rfl, rfl, rfl⟩
      | some g =>
        left
        rfl

/-! ### The claims -/

/-- C1: the dispatcher is total (in this embedding `dispatch` is a total
function: no branch raises to its caller), and whenever the remote
capability flag is false or the credential is missing, the `Groq(...)`
constructor is never invoked and the result is exactly the
`HeuristicAnalyzer`'s pair with the heuristic source tag. -/
theorem c1_dispatch_offline_fallback (env : Env) (t : List Char)
    (h : env.groqAvailable = false ∨ env.apiKey = none) :
    dispatch env t =
      ⟨(local_fallback t).1, (local_fallback t).2,
        chars "LOCAL_FALLBACK", false⟩ := by
  have huse : (!env.groqAvailable || keyFalsy env.apiKey) = true := by
    rcases h with h | h <;> simp [h, keyFalsy]
  simp only [dispatch, huse, if_true]

/-- Witness for C1 at a concrete offline environment and transcript. -/
theorem c1_witness :
    dispatch ⟨false, some (chars "key"), true, some (chars "text")⟩ (chars "x")
      = ⟨chars "x", chars "Neutral", chars "LOCAL_FALLBACK", false⟩ := by
  rw [c1_dispatch_offline_fallback _ _ (Or.inl rfl)]
  simp [local_fallback, reSplit, reSplitGo_cons, reSplitGo_nil, cutCond, isTerm,
    pySpace, pyStrip, pyLower, lowerChar, negWords, posWords, strCount_cons,
    strCount_nil, chars]

/-- C2 falsified as stated: the transcript `"? x"` is non-empty after
trimming, yet the dispatcher's summary is the empty string, because
`local_fallback` takes `sentences[0]`, which is empty when the trimmed
transcript begins with a terminator followed by whitespace. -/
theorem c2_counterexample :
    pyStrip (chars "? x") ≠ [] ∧
      (dispatch ⟨false, none, false, none⟩ (chars "? x")).summary = [] := by
  constructor
  · decide
  · simp [dispatch, keyFalsy, local_fallback, reSplit, reSplitGo_cons,
      reSplitGo_nil, cutCond, isTerm, pySpace, pyStrip, chars]

/-- C2 (amended): on every fallback path the summary is non-empty provided
the trimmed transcript does not begin with a sentence terminator (`.?!`);
without that proviso the summary can be empty, and on the model path it is
whatever the parser returns (possibly empty). -/
theorem c2_fallback_summary_nonempty (env : Env) (t : List Char)
    (c : Char) (rest : List Char)
    (hused : (dispatch env t).used = chars "LOCAL_FALLBACK")
    (hs : pyStrip t = c :: rest) (hterm : isTerm c = false) :
    (dispatch env t).summary ≠ [] := by
  rcases dispatch_used_cases env t with h | h
  · rw [h] at hused
    exact absurd hused (by decide)
  · rw [h.1, local_fallback_summary, hs]
    have hcut : cutCond c rest = false := by
      rw [cutCond.eq_def, hterm, Bool.false_and]
    obtain ⟨w, tl, hw⟩ := reSplit_head_no_cut hcut
    rw [hw, List.headI]
    exact pyStrip_cons_ne_nil (pyStrip_head_not_space hs) w

/-- Witness for C2 (amended) at a concrete transcript. -/
theorem c2_witness :
    (dispatch ⟨false, none, false, none⟩ (chars "x")).summary ≠ [] :=
  c2_fallback_summary_nonempty ⟨false, none, false, none⟩ (chars "x") 'x' []
    rfl rfl rfl

/-- C3 falsified as stated: on the model path the sentiment is not
validated against the four enum values; a model reply with sentiment
`"Mixed"` flows through the dispatcher verbatim. -/
theorem c3_counterexample :
    (dispatch
        ⟨true, some (chars "k"), true,
          some (chars "\x7b\"summary\": \"S\", \"sentiment\": \"Mixed\"\x7d")⟩
        (chars "hi")).sentiment = chars "Mixed" ∧
      chars "Mixed" ≠ chars "Positive" ∧ chars "Mixed" ≠ chars "Neutral" ∧
      chars "Mixed" ≠ chars "Negative" ∧ chars "Mixed" ≠ chars "Unknown" := by
  refine ⟨rfl, ?_, ?_, ?_, ?_⟩ <;> decide

/-- C3 (amended): on the heuristic (fallback) path the sentiment is always
one of the three values Negative, Positive, Neutral (hence within the
claimed four-value enum); on the model path the parser's sentiment string
is passed through unvalidated. -/
theorem c3_fallback_sentiment_enum (env : Env) (t : List Char)
    (hused : (dispatch env t).used = chars "LOCAL_FALLBACK") :
    (dispatch env t).sentiment = chars "Negative" ∨
      (dispatch env t).sentiment = chars "Positive" ∨
      (dispatch env t).sentiment = chars "Neutral" := by
  rcases dispatch_used_cases env t with h | h
  · rw [h] at hused
    exact absurd hused (by decide)
  · rw [h.2.1]
    simp only [local_fallback]
    by_cases h1 :
        ((negWords.map (fun w => strCount w (pyLower (pyStrip t)))).sum >
          (posWords.map (fun w => strCount w (pyLower (pyStrip t)))).sum)
    · rw [if_pos h1]
      left
      rfl
    · rw [if_neg h1]
      by_cases h2 :
          ((posWords.map (fun w => strCount w (pyLower (pyStrip t)))).sum >
            (negWords.map (fun w => strCount w (pyLower (pyStrip t)))).sum)
      · rw [if_pos h2]
        right
        left
        rfl
      · rw [if_neg h2]
        right
        right
        rfl

/-- Witness for C3 (amended) at a concrete offline dispatch. -/
theorem c3_witness :
    (dispatch ⟨false, none, false, none⟩ (chars "ok")).sentiment
        = chars "Negative" ∨
      (dispatch ⟨false, none, false, none⟩ (chars "ok")).sentiment
        = chars "Positive" ∨
      (dispatch ⟨false, none, false, none⟩ (chars "ok")).sentiment
        = chars "Neutral" :=
  c3_fallback_sentiment_enum ⟨false, none, false, none⟩ (chars "ok") rfl

/-- C5 falsified as stated: for transcript `"? hi"` the first *non-empty*
sentence is `"hi"`, but the code returns `sentences[0].strip()`, which is
the empty string here. -/
theorem c5_counterexample :
    (local_fallback (chars "? hi")).1 = [] ∧ chars "hi" ≠ [] := by
  constructor
  · simp [local_fallback, reSplit, reSplitGo_cons, reSplitGo_nil, cutCond,
      isTerm, pySpace, pyStrip, chars]
  · decide

/-- C5 (amended): the heuristic summary always equals the trimmed first
piece of the sentence split — possibly empty, not the first non-empty
sentence — and the split never returns an empty list, so the
12-token/ellipsis fallback is unreachable dead code. -/
theorem c5_summary_first_piece (t : List Char) :
    (local_fallback t).1 = pyStrip ((reSplit (pyStrip t)).headI) ∧
      reSplit (pyStrip t) ≠ [] :=
  ⟨local_fallback_summary t, reSplit_ne_nil _⟩

/-- C9: the heuristic analyzer is deterministic: `local_fallback` is
embedded as a pure function (the Python function reads no global state,
performs no I/O and always returns), so equal transcripts yield equal
(summary, sentiment) pairs. -/
theorem c9_heuristic_deterministic (t1 t2 : List Char) (h : t1 = t2) :
    local_fallback t1 = local_fallback t2 := by
  rw [h]

/-- Witness for C9: two invocations on the same concrete transcript. -/
theorem c9_witness :
    local_fallback (chars "call") = local_fallback (chars "call") :=
  c9_heuristic_deterministic (chars "call") (chars "call") rfl

/-- C4: for every transcript the heuristic sentiment equals the
specification's formula: lower-case the transcript, sum the
substring-occurrence counts of the fixed negative terms into `neg` and of
the fixed positive terms into `pos`, then Negative if `neg > pos`,
Positive if `pos > neg`, Neutral otherwise.  (`specSentiment` counts
occurrences at every position of the un-stripped lower-cased transcript;
the code strips first and uses Python's non-overlapping `str.count` — the
two agree because every keyword is border-free and whitespace-free.) -/
theorem c4_heuristic_sentiment_spec (transcript : List Char) :
    (local_fallback transcript).2 = specSentiment transcript := by
  simp only [local_fallback, specSentiment]
  rw [sum_counts_eq negWords (by decide) transcript,
    sum_counts_eq posWords (by decide) transcript]

/-- C6: the response parser is total (`parseResponse` is a function on all
raw strings), and whenever the strict parse of the whole string fails and
the brace-block parse fails or finds no block, the result is the trimmed
raw text with sentiment `"Unknown"`. -/
theorem c6_parse_fallback (raw : List Char)
    (h1 : tryExtract raw = none)
    (h2 : ∀ b, braceExtract raw = some b → tryExtract b = none) :
    parseResponse raw = (pyStrip raw, chars "Unknown") := by
  rw [parseResponse.eq_def, h1]
  cases hb : braceExtract raw with
  | none => rfl
  | some b => simp only [h2 b hb]

/-- Witness for C6: the claim's concrete brace-free input. -/
theorem c6_witness :
    parseResponse (chars "I cannot help with that.")
      = (chars "I cannot help with that.", chars "Unknown") :=
  c6_parse_fallback (chars "I cannot help with that.") rfl
    (fun _ hb => Option.noConfusion
      ((rfl : braceExtract (chars "I cannot help with that.") = none) ▸ hb))

/-- C7: when the whole raw string parses as a JSON object, the parser
returns the object's `summary` and `sentiment` fields — absent fields
defaulting to the empty string, values trimmed of whitespace (both encoded
in `getField`). -/
theorem c7_parse_strict (raw : List Char) (kvs : List (List Char × JVal))
    (a b : List Char)
    (hjson : json_loads raw = some (JVal.jobj kvs))
    (ha : getField kvs (chars "summary") = some a)
    (hb : getField kvs (chars "sentiment") = some b) :
    parseResponse raw = (a, b) := by
  have ht : tryExtract raw = some (a, b) := by
    rw [tryExtract.eq_def]
    simp only [hjson, ha, hb]
  rw [parseResponse.eq_def]
  simp only [ht]

/-- Witness for C7: the claim's round-trip input. -/
theorem c7_witness :
    parseResponse (chars "\x7b\"summary\": \"S\", \"sentiment\": \"Positive\"\x7d")
      = (chars "S", chars "Positive") :=
  c7_parse_strict
    (chars "\x7b\"summary\": \"S\", \"sentiment\": \"Positive\"\x7d")
    [(chars "summary", JVal.jstr (chars "S")),
     (chars "sentiment", JVal.jstr (chars "Positive"))]
    (chars "S") (chars "Positive") rfl rfl rfl

/-- C8: when the strict parse fails but the greedy brace-delimited block
parses as a JSON object, the parser returns that block's fields. -/
theorem c8_parse_embedded (raw b : List Char) (p : List Char × List Char)
    (h1 : tryExtract raw = none)
    (h2 : braceExtract raw = some b)
    (h3 : tryExtract b = some p) :
    parseResponse raw = p := by
  rw [parseResponse.eq_def]
  simp only [h1, h2, h3]

/-- Witness for C8: the claim's concrete prose-wrapped input. -/
theorem c8_witness :
    parseResponse
        (chars
          "Sure! Here is the result: \x7b\"summary\": \"Customer had a billing issue.\", \"sentiment\": \"Negative\"\x7d Hope this helps!")
      = (chars "Customer had a billing issue.", chars "Negative") :=
  c8_parse_embedded
    (chars
      "Sure! Here is the result: \x7b\"summary\": \"Customer had a billing issue.\", \"sentiment\": \"Negative\"\x7d Hope this helps!")
    (chars
      "\x7b\"summary\": \"Customer had a billing issue.\", \"sentiment\": \"Negative\"\x7d")
    (chars "Customer had a billing issue.", chars "Negative") rfl rfl rfl

/-- A raw model reply containing two disjoint JSON objects separated by
other text. -/
def twoObjRaw : List Char :=
  chars
    "note \x7b\"summary\": \"A\", \"sentiment\": \"Positive\"\x7d mid \x7b\"summary\": \"B\", \"sentiment\": \"Negative\"\x7d end"

/-- The greedy brace block of `twoObjRaw`: from its first `\x7b` to its
last `\x7d`, spanning both objects and the text between them. -/
def twoObjBlock : List Char :=
  chars
    "\x7b\"summary\": \"A\", \"sentiment\": \"Positive\"\x7d mid \x7b\"summary\": \"B\", \"sentiment\": \"Negative\"\x7d"

/-- The first embedded object of `twoObjRaw` on its own. -/
def firstObjRaw : List Char :=
  chars "\x7b\"summary\": \"A\", \"sentiment\": \"Positive\"\x7d"

/-- C10: on a reply with two disjoint embedded JSON objects, the whole
string is not valid JSON, the greedy regex matches from the first brace to
the last (covering both objects), that combined block fails to parse, and
the parser falls back to (trimmed raw, "Unknown") — even though the first
object alone would have yielded ("A", "Positive"). -/
theorem c10_greedy_two_objects :
    json_loads twoObjRaw = none ∧
      braceExtract twoObjRaw = some twoObjBlock ∧
      json_loads twoObjBlock = none ∧
      parseResponse twoObjRaw = (twoObjRaw, chars "Unknown") ∧
      tryExtract firstObjRaw = some (chars "A", chars "Positive") ∧
      (chars "A", chars "Positive") ≠ (twoObjRaw, chars "Unknown") := by
  refine ⟨rfl, rfl, rfl, rfl, rfl, ?_⟩
  decide

end CallAnalyzer
